import Mathlib

/-!
Verification of the RTSS shared-memory OSD subsystem of LilPowerMan.

Shallow embedding of `src/rtss/shared_memory.rs`, `src/rtss/bindings.rs` and
`src/rtss.rs`.  Bytes are modelled as `Nat` (values 0..255), byte buffers as
`List Nat`, and the mapped shared-memory segment as a structure carrying the
header fields plus the OSD entry array.  Mutation through `&mut` references is
rendered as explicit state passing; Rust `Result<(), Error>` becomes
`Except Error Unit`.  Machine integers: every field involved is `u32`/`usize`
on a 64-bit target and the computed quantities provably stay below `2^64`
(offset, (i+1), entry_size are each < 2^32), so plain `Nat` arithmetic is
exact; signed `i32`/`i64` arithmetic uses `Int` with `Int.tdiv`/`Int.tmod`,
which truncate toward zero exactly like Rust's `/` and `%`.
-/

namespace LilPowerMan

/-- Errors of the RTSS subsystem, from `src/rtss.rs` (`pub enum Error`).
`WindowsError` abstracts `WindowsError(windows::core::Error)` (the inner OS
error is irrelevant to every claim). -/
inductive Error where
  | RtssV2NotRunning
  | RtssVersionNotSupported (version : String)
  | UnexpectedMemoryLayout
  | NoEmptyOsdSlots
  | EntryOverflow
  | WindowsError
deriving DecidableEq, Repr

/-- `Display for Error`, from `src/rtss.rs`. -/
def Error.toMessage : Error → String
  | .RtssV2NotRunning => "RTSS is not running"
  | .RtssVersionNotSupported v => "RTSS version is not supported: " ++ v
  | .UnexpectedMemoryLayout => "RTSS shared memory layout does not match expectations"
  | .NoEmptyOsdSlots => "All RTSS OSD slots are occupied"
  | .EntryOverflow => "Entry does not fit in RTSS-allocated buffer"
  | .WindowsError => "Unexpected WinAPI error"

/-- One OSD slot, from `src/rtss/bindings.rs` (`RtssSharedMemoryOsdEntry`).
In the real layout the four byte buffers have the fixed lengths
256 / 256 / 4096 / 262144; the model carries them as lists so that the byte
contents are data (the lengths of an entry actually present in the segment are
those constants). -/
structure RtssSharedMemoryOsdEntry where
  osd : List Nat
  osd_owner : List Nat
  osd_ex : List Nat
  buffer : List Nat
deriving DecidableEq, Repr

instance : Inhabited RtssSharedMemoryOsdEntry := ⟨⟨[], [], [], []⟩⟩

/-- Writing `*entry = Default::default()` (in `unregister`) overwrites the whole
fixed-size record with zero bytes; in the model this zeroes every field while
keeping its length (the lengths stand for the fixed layout sizes). -/
def RtssSharedMemoryOsdEntry.zeroed (e : RtssSharedMemoryOsdEntry) :
    RtssSharedMemoryOsdEntry :=
  { osd := List.replicate e.osd.length 0
    osd_owner := List.replicate e.osd_owner.length 0
    osd_ex := List.replicate e.osd_ex.length 0
    buffer := List.replicate e.buffer.length 0 }

/-- The RTSS shared-memory header plus the OSD entry array it describes, from
`src/rtss/bindings.rs` (`RtssSharedMemory`).  `entries` is the content of the
OSD slot array that the raw memory holds at `osd_arr_offset`. -/
structure RtssSharedMemory where
  signature : List Nat
  version : Nat
  app_entry_size : Nat
  app_arr_offset : Nat
  app_arr_size : Nat
  osd_entry_size : Nat
  osd_arr_offset : Nat
  osd_arr_size : Nat
  osd_frame : Nat
  busy : Int
  entries : List RtssSharedMemoryOsdEntry
deriving DecidableEq, Repr

/-- `RTSS_SIGNATURE`: `['S','S','T','R']` as bytes, from `src/rtss/bindings.rs`. -/
def RTSS_SIGNATURE : List Nat := [83, 83, 84, 82]

/-- `RTSS_MIN_SUPPORTED_VERSION`, from `src/rtss/shared_memory.rs` line 15. -/
def RTSS_MIN_SUPPORTED_VERSION : Nat := 0x0002000e

/-- `OWNER_SIGNATURE`, from `src/rtss/shared_memory.rs` line 16. -/
def OWNER_SIGNATURE : String := "LilPowerMan"

/-- Byte encoding of a string the program writes (`str::as_bytes`).  Every
string this program ever copies into shared memory is ASCII, where UTF-8
bytes coincide with the code points. -/
def strBytes (s : String) : List Nat := s.data.map Char.toNat

/-- `OWNER_SIGNATURE` as bytes. -/
def OWNER_SIGNATURE_BYTES : List Nat := strBytes OWNER_SIGNATURE

/-- `size_of::<RtssSharedMemory>()`: ten 4-byte fields, `repr(C)`, no padding. -/
def RTSS_SHARED_MEMORY_HEADER_SIZE : Nat := 40

/-- `size_of::<RtssSharedMemoryOsdEntry>()` = 256 + 256 + 4096 + 262144. -/
def RTSS_OSD_ENTRY_SIZE : Nat := 266752

/-- `string_from_mem`, from `src/rtss/shared_memory.rs` lines 90-93: the bytes
before the first NUL (all of them when there is none).  `from_utf8_lossy`
equals a fixed ASCII string exactly when these bytes are that string's bytes,
so comparisons against `OWNER_SIGNATURE` are done on the byte lists. -/
def string_from_mem (mem : List Nat) : List Nat :=
  let len := (mem.findIdx? (fun c => c == 0)).getD mem.length
  mem.take len

/-- `string_to_mem`, from `src/rtss/shared_memory.rs` lines 97-105.  Returns
the Rust return value (`content fits entirely, incl. null-terminator`) paired
with the destination buffer after the copy. -/
def string_to_mem (s : List Nat) (mem : List Nat) : Bool × List Nat :=
  let bytes := s
  let len := min bytes.length mem.length
  let mem1 := bytes.take len ++ mem.drop len
  let mem2 := if len < mem.length then mem1.set len 0 else mem1
  (decide (bytes.length < mem.length), mem2)

/-- `SharedMemoryIterationNextStep`, from `src/rtss/shared_memory.rs`. -/
inductive SharedMemoryIterationNextStep where
  | Break
  | Continue
  | RememberAndBreak
  | RememberIfNeededAndContinue
deriving DecidableEq, Repr

open SharedMemoryIterationNextStep

/-- `SharedMemoryGuard::new` (lines 22-34): spin on compare-and-swap of the
shared `busy` flag from 0 to 1 until it succeeds.  In the sequential model the
acquisition is the state after the successful CAS: `busy = 1`. -/
def SharedMemoryGuard.acquire (mem : RtssSharedMemory) : RtssSharedMemory :=
  { mem with busy := 1 }

/-- `Drop for SharedMemoryGuard` (lines 51-55): store 0 to `busy`
unconditionally on scope exit. -/
def SharedMemoryGuard.release (mem : RtssSharedMemory) : RtssSharedMemory :=
  { mem with busy := 0 }

/-- A mapped view: the base address is implicit, `size` is the region size
confirmed by `VirtualQuery`, `mem` the memory content it maps
(`SharedMemoryView`, lines 85-88). -/
structure SharedMemoryView where
  size : Nat
  mem : RtssSharedMemory
deriving DecidableEq, Repr

/-- `SharedMemoryView::from_file` (lines 116-160), after the OS calls
succeeded: `regionSize` is what `VirtualQuery` reported for the mapped view of
`mem`.  Checks, in order: region size against the minimum header size, the
4-byte signature, the version against `RTSS_MIN_SUPPORTED_VERSION` (the
version string is `format!("{}.{}", version >> 16, version & 0xFFFF)`). -/
def SharedMemoryView.from_file (regionSize : Nat) (mem : RtssSharedMemory) :
    Except Error SharedMemoryView :=
  if regionSize < RTSS_SHARED_MEMORY_HEADER_SIZE then
    .error .UnexpectedMemoryLayout
  else
    if mem.signature ≠ RTSS_SIGNATURE then
      .error .RtssV2NotRunning
    else
      let version := toString (mem.version >>> 16) ++ "." ++ toString (mem.version &&& 0xFFFF)
      if mem.version < RTSS_MIN_SUPPORTED_VERSION then
        .error (.RtssVersionNotSupported version)
      else
        .ok ⟨regionSize, mem⟩

/-- Result of the `for i in 1..n` loop body of `for_each_entry`: either the
scan ran to a break/end with the (possibly mutated) entries and the remembered
index, or a bounds check failed after some prefix was processed. -/
inductive ForEachLoopResult where
  | ok (entries : List RtssSharedMemoryOsdEntry) (remembered : Option Nat)
  | layoutError (entries : List RtssSharedMemoryOsdEntry)
deriving DecidableEq, Repr

/-- The entry array a loop result carries (mutations of the visited prefix
are reflected in it on both outcomes). -/
def ForEachLoopResult.entries : ForEachLoopResult → List RtssSharedMemoryOsdEntry
  | .ok es _ => es
  | .layoutError es => es

/-- The `for i in 1..n` loop of `SharedMemoryView::for_each_entry`
(lines 188-212).  `idxs` is the list of loop indices left to visit; `process`
returns the directive together with the entry as the closure left it (it holds
`&mut` access); `remembered` is `remembered_entry` (the index — the entry
value is re-read from `entries` at finalize time, as the `&mut` reference
aliases the array slot). -/
def forEachLoop (map_view_size osd_arr_offset entry_size : Nat)
    (process : Nat → RtssSharedMemoryOsdEntry →
      SharedMemoryIterationNextStep × RtssSharedMemoryOsdEntry) :
    List Nat → List RtssSharedMemoryOsdEntry → Option Nat → ForEachLoopResult
  | [], entries, remembered => .ok entries remembered
  | i :: rest, entries, remembered =>
    let entry_last_byte := osd_arr_offset + (i + 1) * entry_size - 1
    if entry_last_byte ≥ map_view_size then
      .layoutError entries
    else
      let entry := entries.getD i default
      match process i entry with
      | (Break, e) => .ok (entries.set i e) remembered
      | (Continue, e) =>
          forEachLoop map_view_size osd_arr_offset entry_size process rest
            (entries.set i e) remembered
      | (RememberAndBreak, e) => .ok (entries.set i e) (some i)
      | (RememberIfNeededAndContinue, e) =>
          forEachLoop map_view_size osd_arr_offset entry_size process rest
            (entries.set i e)
            (if remembered.isNone then some i else remembered)

/-- `SharedMemoryView::for_each_entry` (lines 166-214).  Returns the Rust
result paired with the shared memory as the call leaves it (`busy` included:
the guard is acquired up front and its `Drop` releases it on every path).
`finalize` models `FnOnce(Option<(usize, &mut Entry)>) -> Result<(), Error>`:
it receives the remembered index and entry and returns the entry as it leaves
it (`some e'` overwrites the slot through the `&mut` reference) plus the
result. -/
def SharedMemoryView.for_each_entry (view : SharedMemoryView)
    (process : Nat → RtssSharedMemoryOsdEntry →
      SharedMemoryIterationNextStep × RtssSharedMemoryOsdEntry)
    (finalize : Option (Nat × RtssSharedMemoryOsdEntry) →
      Option RtssSharedMemoryOsdEntry × Except Error Unit) :
    Except Error Unit × RtssSharedMemory :=
  let map_view_size := view.size
  let mem := SharedMemoryGuard.acquire view.mem
  if mem.signature ≠ RTSS_SIGNATURE then
    (.error .RtssV2NotRunning, SharedMemoryGuard.release mem)
  else
    let n := mem.osd_arr_size
    let entry_size := mem.osd_entry_size
    if entry_size < RTSS_OSD_ENTRY_SIZE then
      (.error .UnexpectedMemoryLayout, SharedMemoryGuard.release mem)
    else
      match forEachLoop map_view_size mem.osd_arr_offset entry_size process
          (List.range' 1 (n - 1)) mem.entries none with
      | .layoutError es =>
          (.error .UnexpectedMemoryLayout,
            SharedMemoryGuard.release { mem with entries := es })
      | .ok es remembered =>
          let target := remembered.map fun i => (i, es.getD i default)
          let fr := finalize target
          let es' := match remembered, fr.1 with
            | some i, some e => es.set i e
            | _, _ => es
          (fr.2, SharedMemoryGuard.release { mem with entries := es' })

/-- The `process` closure of `SharedMemoryView::unregister` (lines 218-230):
zero out any entry owned by us, always `Continue`. -/
def unregisterProcess (_i : Nat) (entry : RtssSharedMemoryOsdEntry) :
    SharedMemoryIterationNextStep × RtssSharedMemoryOsdEntry :=
  let owner := string_from_mem entry.osd_owner
  if owner = OWNER_SIGNATURE_BYTES then
    (Continue, entry.zeroed)
  else
    (Continue, entry)

/-- `SharedMemoryView::unregister` (lines 216-233). -/
def SharedMemoryView.unregister (view : SharedMemoryView) :
    Except Error Unit × RtssSharedMemory :=
  view.for_each_entry unregisterProcess (fun _ => (none, .ok ()))

/-- The `process` closure of `SharedMemoryView::update` (lines 240-249):
prefer a slot we already own (`RememberAndBreak`), fall back to the first
empty one (`RememberIfNeededAndContinue`), skip slots owned by others. -/
def updateProcess (_i : Nat) (entry : RtssSharedMemoryOsdEntry) :
    SharedMemoryIterationNextStep × RtssSharedMemoryOsdEntry :=
  let current_owner := string_from_mem entry.osd_owner
  if current_owner = OWNER_SIGNATURE_BYTES then
    (RememberAndBreak, entry)
  else if current_owner = [] then
    (RememberIfNeededAndContinue, entry)
  else
    (Continue, entry)

/-- `SharedMemoryView::update` (lines 235-260).  `f` models the
`FnOnce(&mut RtssSharedMemoryOsdEntry) -> Result<(), Error>` writer: it
returns the entry as it leaves it plus its result. -/
def SharedMemoryView.update (view : SharedMemoryView)
    (f : RtssSharedMemoryOsdEntry → RtssSharedMemoryOsdEntry × Except Error Unit) :
    Except Error Unit × RtssSharedMemory :=
  view.for_each_entry updateProcess fun target =>
    match target with
    | none => (none, .error .NoEmptyOsdSlots)
    | some (_target_idx, target_entry) =>
        (some (f target_entry).1, (f target_entry).2)

/-- `SharedMemoryBuilder` (lines 283-286): the accumulated OSD text. (The
`buf_len` counter backs the graph serialization, which is absent from the
snapshot; it plays no role in any claim.) -/
structure SharedMemoryBuilder where
  osd : String
  buf_len : Nat
deriving DecidableEq, Repr

/-- `SharedMemoryBuilder::new` (lines 289-294). -/
def SharedMemoryBuilder.new : SharedMemoryBuilder := ⟨"", 0⟩

/-- `SharedMemoryBuilder::add_text` (lines 296-299). -/
def SharedMemoryBuilder.add_text (b : SharedMemoryBuilder) (text : String) :
    SharedMemoryBuilder :=
  { b with osd := b.osd ++ text }

/-- `SharedMemoryBuilder::add_newline` (lines 301-303). -/
def SharedMemoryBuilder.add_newline (b : SharedMemoryBuilder) : SharedMemoryBuilder :=
  b.add_text "\r\n"

/-- Modelled from the spec: `SharedMemoryBuilder::add_graph` is called by
`Rtss::update` but its definition is missing from the snapshot.  The spec says
the builder "accumulates a logical sequence of draw directives (... embedded
graph widgets)" serialized on `write`; the graph's byte serialization goes to
the slot's raw data buffer.  The model lets the directive contribute an opaque
markup string `g` to the composed text (possibly empty), which is all any
claim depends on. -/
def SharedMemoryBuilder.add_graph (b : SharedMemoryBuilder) (g : String) :
    SharedMemoryBuilder :=
  { b with osd := b.osd ++ g }

/-- The writer closure of `SharedMemoryBuilder::write` (lines 305-315): copy
the `OWNER_SIGNATURE` into the owner buffer and the composed text into the
extended-text buffer; `EntryOverflow` when either did not fit (Rust `||`
short-circuits: the text copy runs only when the owner copy fit). -/
def SharedMemoryBuilder.writeEntry (b : SharedMemoryBuilder)
    (entry : RtssSharedMemoryOsdEntry) :
    RtssSharedMemoryOsdEntry × Except Error Unit :=
  let (ownerFits, owner') := string_to_mem OWNER_SIGNATURE_BYTES entry.osd_owner
  if !ownerFits then
    ({ entry with osd_owner := owner' }, .error .EntryOverflow)
  else
    let (textFits, ex') := string_to_mem (strBytes b.osd) entry.osd_ex
    if !textFits then
      ({ entry with osd_owner := owner', osd_ex := ex' }, .error .EntryOverflow)
    else
      ({ entry with osd_owner := owner', osd_ex := ex' }, .ok ())

/-- `SharedMemoryBuilder::write` (lines 305-315). -/
def SharedMemoryBuilder.write (b : SharedMemoryBuilder) (view : SharedMemoryView) :
    Except Error Unit × RtssSharedMemory :=
  view.update b.writeEntry

/-- Modelled from the spec: `BatteryStatus` is supplied by the battery
subsystem (its struct is not in the snapshot; `rtss.rs` reads
`battery.charge_rate` in mW, an `i32`, and `battery.capacity` in mWh).  Only
these two fields are consumed by the core. -/
structure BatteryStatus where
  charge_rate : Int
  capacity : Int
deriving DecidableEq, Repr

/-- Rust `format!("{:03}", n)` for a non-negative value: decimal, zero-padded
to width 3. -/
def pad3 (n : Nat) : String :=
  let s := toString n
  if s.length < 3 then String.mk (List.replicate (3 - s.length) '0') ++ s else s

/-- Rust `format!("{:02}", n)` for a non-negative value: decimal, zero-padded
to width 2. -/
def pad2 (n : Nat) : String :=
  let s := toString n
  if s.length < 2 then String.mk (List.replicate (2 - s.length) '0') ++ s else s

/-- The wattage text of `Rtss::update` (lines 63-67):
`format!("{}.{:03}<S=50>W<S>", charge_rate / 1000, (charge_rate % 1000).abs())`
with Rust `i32` division/remainder (truncating toward zero). -/
def wattageText (charge_rate : Int) : String :=
  toString (charge_rate.tdiv 1000) ++ "." ++ pad3 (charge_rate.tmod 1000).natAbs
    ++ "<S=50>W<S>"

/-- The full OSD text composed by `Rtss::update` (lines 61-80).  `g1`/`g2` are
the opaque text contributions of the battery and fps graph directives
(spec-modelled, see `SharedMemoryBuilder.add_graph`); `mins` abstracts
`(-60.0 * (capacity as f64 / charge_rate as f64)) as i64`, a floating-point
computation kept opaque; `hh`/`mm` come from `get_local_time()`. -/
def updateOsdText (charge_rate : Int) (mins : Int) (g1 g2 : String)
    (hh mm : Nat) : String :=
  (((((SharedMemoryBuilder.new.add_graph g1).add_text (wattageText charge_rate)).add_text
      (if charge_rate < 0 then "  " ++ toString mins ++ "<S=50>mins<S>"
       else "  (on charger)")).add_newline.add_graph g2).add_text
      "<FR><S=50>FPS<S>").add_text ("  " ++ pad2 hh ++ ":" ++ pad2 mm)
    |>.osd

/-- `Rtss` (lines 10-14): only the `ever_updated` flag matters to the claims
(the two graphs' sample state is not consumed by any claim). -/
structure Rtss where
  ever_updated : Bool
deriving DecidableEq, Repr

/-- `Rtss::update` (lines 55-84).  `env` abstracts
`open_shared_memory()` + `MapViewOfFile`/`VirtualQuery`: `.error e` when the
OS layer fails with `e`, `.ok (regionSize, mem)` when the segment mapped;
`fpsResult` abstracts `view.get_fps()` (its code is absent from the snapshot;
modelled from the spec as a fallible read-back of the server's frame rate
whose value only feeds the fps graph); `mins`, `g1`, `g2`, `hh`, `mm` as in
`updateOsdText`.  Returns the facade state, the result, and the shared memory
as left behind (`none` when mapping never succeeded). -/
def Rtss.update (r : Rtss) (env : Except Error (Nat × RtssSharedMemory))
    (battery : BatteryStatus) (fpsResult : Except Error Unit) (mins : Int)
    (g1 g2 : String) (hh mm : Nat) :
    Rtss × Except Error Unit × Option RtssSharedMemory :=
  match env with
  | .error e => (r, .error e, none)
  | .ok (regionSize, mem0) =>
    match SharedMemoryView.from_file regionSize mem0 with
    | .error e => (r, .error e, some mem0)
    | .ok view =>
      match fpsResult with
      | .error e => (r, .error e, some mem0)
      | .ok _ =>
        let builder : SharedMemoryBuilder :=
          ⟨updateOsdText battery.charge_rate mins g1 g2 hh mm, 0⟩
        match builder.write view with
        | (.error e, mem') => (r, .error e, some mem')
        | (.ok _, mem') => ({ r with ever_updated := true }, .ok (), some mem')

/-- `Rtss::unregister` (lines 86-90), with the OS layer abstracted as in
`Rtss.update`. -/
def Rtss.unregister (env : Except Error (Nat × RtssSharedMemory)) :
    Except Error Unit × Option RtssSharedMemory :=
  match env with
  | .error e => (.error e, none)
  | .ok (regionSize, mem0) =>
    match SharedMemoryView.from_file regionSize mem0 with
    | .error e => (.error e, some mem0)
    | .ok view =>
      let (res, mem') := view.unregister
      (res, some mem')

/-- `Drop for Rtss` (lines 93-105).  Returns whether the unregister cycle was
attempted, the error message logged (if any), and the shared memory as left
behind.  The return type has no error channel: teardown swallows every
failure (silently for `RtssV2NotRunning`, logging otherwise). -/
def Rtss.drop (r : Rtss) (env : Except Error (Nat × RtssSharedMemory)) :
    Bool × Option String × Option RtssSharedMemory :=
  if r.ever_updated then
    match Rtss.unregister env with
    | (.ok _, mem') => (true, none, mem')
    | (.error .RtssV2NotRunning, mem') => (true, none, mem')
    | (.error err, mem') =>
        (true, some ("Failed to unregister from the RTSS shared memory: "
          ++ err.toMessage), mem')
  else
    (false, none, none)

/-- A slot whose owner string equals our `OWNER_SIGNATURE`. -/
def ownedByUs (e : RtssSharedMemoryOsdEntry) : Bool :=
  decide (string_from_mem e.osd_owner = OWNER_SIGNATURE_BYTES)

/-- A slot whose owner string is empty. -/
def emptyOwner (e : RtssSharedMemoryOsdEntry) : Bool :=
  decide (string_from_mem e.osd_owner = [])

/-- From the spec (claim C1's wording, for refinement): the slot the claim
scan should select — the first scanned slot (indices 1..n-1) whose owner
equals the OwnershipMark if any such slot exists, otherwise the first scanned
slot whose owner is empty, otherwise none. -/
def specClaimTarget (entries : List RtssSharedMemoryOsdEntry) (n : Nat) : Option Nat :=
  match (List.range' 1 (n - 1)).find? (fun i => ownedByUs (entries.getD i default)) with
  | some i => some i
  | none => (List.range' 1 (n - 1)).find? (fun i => emptyOwner (entries.getD i default))

/-- The error a result carries, if any. -/
def exceptError {α : Type} : Except Error α → Option Error
  | .error e => some e
  | .ok _ => none

/-! Concrete sample data used to evaluate the theorems on closed inputs. -/

/-- A slot owned by another client ("Bob", NUL-terminated, with trailing
garbage). -/
def sampleOtherSlot : RtssSharedMemoryOsdEntry :=
  ⟨List.replicate 8 0, strBytes "Bob" ++ [0, 7], List.replicate 64 0, []⟩

/-- An empty slot (owner buffer starts with NUL; stale bytes follow). -/
def sampleEmptySlot : RtssSharedMemoryOsdEntry :=
  ⟨List.replicate 8 0, 0 :: strBytes "junk", List.replicate 64 0, []⟩

/-- A slot already owned by this application. -/
def sampleOwnedSlot : RtssSharedMemoryOsdEntry :=
  ⟨List.replicate 8 0, OWNER_SIGNATURE_BYTES ++ [0, 9], List.replicate 64 0, []⟩

/-- A valid segment whose OSD array is
`[owned_by_other, empty, owned_by_us, empty]`. -/
def sampleMemory : RtssSharedMemory :=
  { signature := RTSS_SIGNATURE
    version := 0x00020014
    app_entry_size := 0, app_arr_offset := 0, app_arr_size := 0
    osd_entry_size := RTSS_OSD_ENTRY_SIZE
    osd_arr_offset := 40
    osd_arr_size := 4
    osd_frame := 0, busy := 0
    entries := [sampleOtherSlot, sampleEmptySlot, sampleOwnedSlot, sampleEmptySlot] }

/-- A view of `sampleMemory` large enough for all four slots. -/
def sampleView : SharedMemoryView := ⟨2000000, sampleMemory⟩

/-- A view of `sampleMemory` only large enough for slot 1: slot 2's byte
range exceeds the region. -/
def sampleTruncView : SharedMemoryView := ⟨600000, sampleMemory⟩

/-! ## Helper lemmas -/

lemma set_getD_self {α : Type} (l : List α) (i : Nat) (d : α) :
    l.set i (l.getD i d) = l := by
  induction l generalizing i with
  | nil => rfl
  | cons a t ih =>
    cases i with
    | zero => rfl
    | succ k => simpa [List.set] using ih k

lemma take_set_self {α : Type} (a : α) (n : Nat) (l : List α) :
    (l.set n a).take n = l.take n := by
  induction l generalizing n with
  | nil => rfl
  | cons h t ih =>
    cases n with
    | zero => rfl
    | succ k => simpa [List.set] using ih k

lemma getD_set_self {α : Type} (a d : α) {n : Nat} {l : List α} (h : n < l.length) :
    (l.set n a).getD n d = a := by
  induction l generalizing n with
  | nil => simp at h
  | cons x t ih =>
    cases n with
    | zero => rfl
    | succ k => simpa [List.set] using ih (by simpa using h)

lemma getD_set_ne {α : Type} (a d : α) (n j : Nat) (l : List α) (h : n ≠ j) :
    (l.set n a).getD j d = l.getD j d := by
  induction l generalizing n j with
  | nil => rfl
  | cons x t ih =>
    cases n with
    | zero => cases j with
      | zero => exact absurd rfl h
      | succ m => rfl
    | succ k => cases j with
      | zero => rfl
      | succ m => simpa [List.set] using ih k m (by omega)

lemma forEachLoop_updateProcess_spec (sz off es : Nat) (l : List Nat)
    (entries : List RtssSharedMemoryOsdEntry) (rem : Option Nat)
    (hb : ∀ i ∈ l, off + (i + 1) * es - 1 < sz) :
    forEachLoop sz off es updateProcess l entries rem =
      .ok entries
        (match l.find? (fun i => ownedByUs (entries.getD i default)) with
         | some i => some i
         | none =>
           match rem with
           | some r => some r
           | none => l.find? (fun i => emptyOwner (entries.getD i default))) := by
  induction l generalizing rem with
  | nil => cases rem <;> rfl
  | cons i rest ih =>
    have hbi := hb i (List.mem_cons_self i rest)
    have hbr : ∀ j ∈ rest, off + (j + 1) * es - 1 < sz := fun j hj =>
      hb j (List.mem_cons_of_mem _ hj)
    simp only [forEachLoop]
    rw [if_neg (by omega)]
    simp only [updateProcess]
    by_cases h1 : string_from_mem (entries.getD i default).osd_owner = OWNER_SIGNATURE_BYTES
    · have hOwn : ownedByUs (entries.getD i default) = true := by
        simp only [ownedByUs, decide_eq_true_eq]; exact h1
      rw [if_pos h1]
      simp only [List.find?_cons, hOwn, set_getD_self]
    · have hNotOwn : ¬ ownedByUs (entries.getD i default) = true := by
        simp only [ownedByUs, decide_eq_true_eq]; exact h1
      rw [if_neg h1]
      have hOwnF : ownedByUs (entries.getD i default) = false :=
        Bool.eq_false_iff.mpr (fun hc => hNotOwn hc)
      by_cases h2 : string_from_mem (entries.getD i default).osd_owner = ([] : List Nat)
      · have hEmp : emptyOwner (entries.getD i default) = true := by
          simp only [emptyOwner, decide_eq_true_eq]; exact h2
        rw [if_pos h2]
        simp only [set_getD_self, ih _ hbr, List.find?_cons, hOwnF, hEmp]
        rcases hf : rest.find? (fun j => ownedByUs (entries.getD j default)) with _ | j <;>
          rcases rem with _ | r <;> simp [hf]
      · have hEmpF : emptyOwner (entries.getD i default) = false := by
          simp only [emptyOwner]
          exact decide_eq_false h2
        rw [if_neg h2]
        simp only [set_getD_self, ih _ hbr, List.find?_cons, hOwnF, hEmpF]

/-! ## Theorems for the claims -/

lemma update_applies_writer_at_spec_target (view : SharedMemoryView)
    (f : RtssSharedMemoryOsdEntry → RtssSharedMemoryOsdEntry × Except Error Unit)
    (hsig : view.mem.signature = RTSS_SIGNATURE)
    (hes : RTSS_OSD_ENTRY_SIZE ≤ view.mem.osd_entry_size)
    (hb : ∀ i ∈ List.range' 1 (view.mem.osd_arr_size - 1),
      view.mem.osd_arr_offset + (i + 1) * view.mem.osd_entry_size - 1 < view.size) :
    (specClaimTarget view.mem.entries view.mem.osd_arr_size = none →
      view.update f = (.error .NoEmptyOsdSlots, { view.mem with busy := 0 })) ∧
    (∀ i, specClaimTarget view.mem.entries view.mem.osd_arr_size = some i →
      view.update f =
        ((f (view.mem.entries.getD i default)).2,
          { view.mem with
            busy := 0
            entries := view.mem.entries.set i (f (view.mem.entries.getD i default)).1 })) := by
  have hloop := forEachLoop_updateProcess_spec view.size view.mem.osd_arr_offset
    view.mem.osd_entry_size (List.range' 1 (view.mem.osd_arr_size - 1))
    view.mem.entries none hb
  constructor
  · intro hsel
    simp only [SharedMemoryView.update, SharedMemoryView.for_each_entry,
      SharedMemoryGuard.acquire, SharedMemoryGuard.release]
    rw [if_neg (by simp [hsig]), if_neg (Nat.not_lt.2 hes)]
    rw [hloop]
    simp only [specClaimTarget] at hsel
    rw [hsel]
    rfl
  · intro i hsel
    simp only [SharedMemoryView.update, SharedMemoryView.for_each_entry,
      SharedMemoryGuard.acquire, SharedMemoryGuard.release]
    rw [if_neg (by simp [hsig]), if_neg (Nat.not_lt.2 hes)]
    rw [hloop]
    simp only [specClaimTarget] at hsel
    rw [hsel]
    rfl

/-- C1: with the guard held, the claim scan of `update` selects exactly the
slot described by the spec (`specClaimTarget`): the first scanned slot owned
by us if any — preferred over any earlier empty slot — else the first scanned
empty slot; when neither exists the operation fails with the no-free-slot
error (`NoEmptyOsdSlots`) and no slot is modified. -/
theorem update_scan_selects_spec_target (view : SharedMemoryView)
    (f : RtssSharedMemoryOsdEntry → RtssSharedMemoryOsdEntry × Except Error Unit)
    (hsig : view.mem.signature = RTSS_SIGNATURE)
    (hes : RTSS_OSD_ENTRY_SIZE ≤ view.mem.osd_entry_size)
    (hb : ∀ i ∈ List.range' 1 (view.mem.osd_arr_size - 1),
      view.mem.osd_arr_offset + (i + 1) * view.mem.osd_entry_size - 1 < view.size) :
    (specClaimTarget view.mem.entries view.mem.osd_arr_size = none →
      view.update f = (.error .NoEmptyOsdSlots, { view.mem with busy := 0 })) ∧
    (∀ i, specClaimTarget view.mem.entries view.mem.osd_arr_size = some i →
      view.update f =
        ((f (view.mem.entries.getD i default)).2,
          { view.mem with
            busy := 0
            entries := view.mem.entries.set i (f (view.mem.entries.getD i default)).1 })) :=
  update_applies_writer_at_spec_target view f hsig hes hb

/-- C1 witness: on slots `[owned_by_other, empty, owned_by_us, empty]` the
scan targets index 2 (the slot we own), not the earlier empty index 1: the
writer is applied to slot 2. -/
theorem update_scan_selects_spec_target_witness :
    specClaimTarget sampleMemory.entries 4 = some 2 ∧
    sampleView.update (fun e => (e.zeroed, .ok ())) =
      (.ok (), { sampleMemory with
        busy := 0
        entries := [sampleOtherSlot, sampleEmptySlot, sampleOwnedSlot.zeroed,
          sampleEmptySlot] }) := by
  have h := (update_scan_selects_spec_target sampleView (fun e => (e.zeroed, .ok ()))
    (by decide) (by decide) (by decide)).2 2 (by decide)
  exact ⟨by decide, by rw [h]; rfl⟩

/-- C2: mapping validation order — a region smaller than the header fails with
`UnexpectedMemoryLayout`; a wrong 4-byte signature fails with
`RtssV2NotRunning`; a version below the minimum fails with
`RtssVersionNotSupported` carrying the version string; otherwise mapping
succeeds; and the outcome class (which failure, or success) never depends on
the OSD entries — no entry is read or written by `from_file`. -/
theorem from_file_header_validation (regionSize : Nat) (mem : RtssSharedMemory) :
    (regionSize < RTSS_SHARED_MEMORY_HEADER_SIZE →
      SharedMemoryView.from_file regionSize mem = .error .UnexpectedMemoryLayout) ∧
    (RTSS_SHARED_MEMORY_HEADER_SIZE ≤ regionSize → mem.signature ≠ RTSS_SIGNATURE →
      SharedMemoryView.from_file regionSize mem = .error .RtssV2NotRunning) ∧
    (RTSS_SHARED_MEMORY_HEADER_SIZE ≤ regionSize → mem.signature = RTSS_SIGNATURE →
      mem.version < RTSS_MIN_SUPPORTED_VERSION →
      SharedMemoryView.from_file regionSize mem =
        .error (.RtssVersionNotSupported
          (toString (mem.version >>> 16) ++ "." ++ toString (mem.version &&& 0xFFFF)))) ∧
    (RTSS_SHARED_MEMORY_HEADER_SIZE ≤ regionSize → mem.signature = RTSS_SIGNATURE →
      RTSS_MIN_SUPPORTED_VERSION ≤ mem.version →
      SharedMemoryView.from_file regionSize mem = .ok ⟨regionSize, mem⟩) ∧
    (∀ es, exceptError (SharedMemoryView.from_file regionSize { mem with entries := es }) =
      exceptError (SharedMemoryView.from_file regionSize mem)) := by
  refine ⟨fun h => ?_, fun h hs => ?_, fun h hs hv => ?_, fun h hs hv => ?_, fun es => ?_⟩
  · simp [SharedMemoryView.from_file, h]
  · simp [SharedMemoryView.from_file, Nat.not_lt.2 h, hs]
  · simp [SharedMemoryView.from_file, Nat.not_lt.2 h, hs, hv]
  · simp [SharedMemoryView.from_file, Nat.not_lt.2 h, hs, Nat.not_lt.2 hv]
  · unfold SharedMemoryView.from_file
    split_ifs <;> rfl

/-- C2 witness: on a concrete memory each validation case fires as stated. -/
theorem from_file_header_validation_witness :
    SharedMemoryView.from_file 39 sampleMemory = .error .UnexpectedMemoryLayout ∧
    SharedMemoryView.from_file 40 { sampleMemory with signature := [0, 0, 0, 0] } =
      .error .RtssV2NotRunning ∧
    SharedMemoryView.from_file 40 sampleMemory = .ok ⟨40, sampleMemory⟩ :=
  ⟨(from_file_header_validation 39 sampleMemory).1 (by decide),
   (from_file_header_validation 40 { sampleMemory with signature := [0, 0, 0, 0] }).2.1
     (by decide) (by decide),
   (from_file_header_validation 40 sampleMemory).2.2.2.1 (by decide) (by decide) (by decide)⟩

/-- C4: whatever the per-entry and finalize callbacks do and whichever path
`for_each_entry` returns through (signature-mismatch error, entry-size error,
bounds error, finalize error or success), the shared busy flag has been stored
back to 0 by the guard's scope exit. -/
theorem for_each_entry_releases_busy (view : SharedMemoryView)
    (process : Nat → RtssSharedMemoryOsdEntry →
      SharedMemoryIterationNextStep × RtssSharedMemoryOsdEntry)
    (finalize : Option (Nat × RtssSharedMemoryOsdEntry) →
      Option RtssSharedMemoryOsdEntry × Except Error Unit) :
    (view.for_each_entry process finalize).2.busy = 0 := by
  simp only [SharedMemoryView.for_each_entry]
  split
  · rfl
  · split
    · rfl
    · split <;> rfl

/-- C5: the bounded copy `string_to_mem` copies exactly
`min (length s) (length b)` bytes of `s` into `b` (prefix copied, bytes past
the terminator position untouched, length preserved), writes a NUL right
after the copied bytes whenever fewer bytes were copied than the buffer
holds, and returns `true` iff `length s < length b`; and the slot write
reports `EntryOverflow` exactly when the owner copy or the text copy
returned `false`. -/
theorem string_to_mem_bounded_copy (s b : List Nat)
    (builder : SharedMemoryBuilder) (entry : RtssSharedMemoryOsdEntry) :
    ((string_to_mem s b).2.take (min s.length b.length) =
      s.take (min s.length b.length)) ∧
    ((string_to_mem s b).2.drop (min s.length b.length + 1) =
      b.drop (min s.length b.length + 1)) ∧
    ((string_to_mem s b).2.length = b.length) ∧
    (min s.length b.length < b.length →
      (string_to_mem s b).2.getD (min s.length b.length) 1 = 0) ∧
    ((string_to_mem s b).1 = true ↔ s.length < b.length) ∧
    ((builder.writeEntry entry).2 = .error .EntryOverflow ↔
      ((string_to_mem OWNER_SIGNATURE_BYTES entry.osd_owner).1 = false ∨
       (string_to_mem (strBytes builder.osd) entry.osd_ex).1 = false)) := by
  have hlen : (s.take (min s.length b.length)).length = min s.length b.length := by
    simp [List.length_take]
  have hmem1 : ((s.take (min s.length b.length) ++ b.drop (min s.length b.length)).take
      (min s.length b.length)) = s.take (min s.length b.length) :=
    List.take_left' hlen
  refine ⟨?_, ?_, ?_, ?_, ?_, ?_⟩
  · simp only [string_to_mem]
    split
    · rw [take_set_self, hmem1]
    · rw [hmem1]
  · simp only [string_to_mem]
    have hdrop : (s.take (min s.length b.length) ++ b.drop (min s.length b.length)).drop
        (min s.length b.length + 1) = b.drop (min s.length b.length + 1) := by
      have := @List.drop_append _ (s.take (min s.length b.length))
        (b.drop (min s.length b.length)) 1
      rw [hlen] at this
      rw [this, List.drop_drop]
    split
    · rw [List.drop_set_of_lt _ _ (by omega), hdrop]
    · rw [hdrop]
  · simp only [string_to_mem]
    split <;> simp [List.length_take, List.length_drop]
  · intro h
    simp only [string_to_mem]
    rw [if_pos h]
    apply getD_set_self
    simp [List.length_take, List.length_drop]
    omega
  · simp only [string_to_mem]
    simp
  · rcases hown : string_to_mem OWNER_SIGNATURE_BYTES entry.osd_owner with ⟨fo, owner'⟩
    rcases htext : string_to_mem (strBytes builder.osd) entry.osd_ex with ⟨ft, ex'⟩
    cases fo <;> cases ft <;>
      simp [SharedMemoryBuilder.writeEntry, hown, htext]

/-- C5 witness: content of length exactly the buffer length is copied in full
but reported as not fitting; shorter content gets the NUL terminator. -/
theorem string_to_mem_bounded_copy_witness :
    ((string_to_mem [1, 2, 3] [9, 9, 9]).2.take 3 = [1, 2, 3] ∧
      ((string_to_mem [1, 2, 3] [9, 9, 9]).1 = true ↔ (3 : Nat) < 3)) ∧
    ((2 : Nat) < 3 → (string_to_mem [1, 2] [9, 9, 9]).2.getD 2 1 = 0) :=
  ⟨⟨(string_to_mem_bounded_copy [1, 2, 3] [9, 9, 9] SharedMemoryBuilder.new default).1,
    (string_to_mem_bounded_copy [1, 2, 3] [9, 9, 9] SharedMemoryBuilder.new default).2.2.2.2.1⟩,
   (string_to_mem_bounded_copy [1, 2] [9, 9, 9] SharedMemoryBuilder.new default).2.2.2.1⟩

/-- C8: any header version below `RTSS_MIN_SUPPORTED_VERSION` is rejected
with `RtssVersionNotSupported` carrying `(v >> 16) ++ "." ++ (v & 0xFFFF)`
rendered in decimal. -/
theorem from_file_version_below_min (v regionSize : Nat) (mem : RtssSharedMemory)
    (hv : v < RTSS_MIN_SUPPORTED_VERSION)
    (hrs : RTSS_SHARED_MEMORY_HEADER_SIZE ≤ regionSize)
    (hsig : mem.signature = RTSS_SIGNATURE)
    (hver : mem.version = v) :
    SharedMemoryView.from_file regionSize mem =
      .error (.RtssVersionNotSupported
        (toString (v >>> 16) ++ "." ++ toString (v &&& 0xFFFF))) := by
  simp [SharedMemoryView.from_file, Nat.not_lt.2 hrs, hsig, hver, hv]

/-- C8 witness: version `0x00020005` yields the string `"2.5"`. -/
theorem from_file_version_below_min_witness :
    SharedMemoryView.from_file 40 { sampleMemory with version := 0x00020005 } =
      .error (.RtssVersionNotSupported "2.5") := by
  have h := from_file_version_below_min 0x00020005 40
    { sampleMemory with version := 0x00020005 } (by decide) (by decide) (by decide) rfl
  have hs : toString ((0x00020005 : Nat) >>> 16) ++ "." ++
      toString ((0x00020005 : Nat) &&& 0xFFFF) = "2.5" := by decide
  rw [h, hs]

lemma forEachLoop_unregisterProcess_spec (sz off es : Nat) (l : List Nat)
    (entries : List RtssSharedMemoryOsdEntry) (rem : Option Nat)
    (hb : ∀ i ∈ l, off + (i + 1) * es - 1 < sz)
    (hlt : ∀ i ∈ l, i < entries.length)
    (hnd : l.Nodup) :
    ∃ es', forEachLoop sz off es unregisterProcess l entries rem = .ok es' rem ∧
      es'.length = entries.length ∧
      ∀ j, es'.getD j default =
        if j ∈ l ∧ ownedByUs (entries.getD j default) = true
        then (entries.getD j default).zeroed
        else entries.getD j default := by
  induction l generalizing entries with
  | nil => exact ⟨entries, rfl, rfl, fun j => by simp⟩
  | cons i rest ih =>
    have hbi := hb i (List.mem_cons_self i rest)
    have hbr : ∀ j ∈ rest, off + (j + 1) * es - 1 < sz := fun j hj =>
      hb j (List.mem_cons_of_mem _ hj)
    have hlti := hlt i (List.mem_cons_self i rest)
    have hltr : ∀ j ∈ rest, j < entries.length := fun j hj =>
      hlt j (List.mem_cons_of_mem _ hj)
    have hni : i ∉ rest := (List.nodup_cons.mp hnd).1
    have hndr : rest.Nodup := (List.nodup_cons.mp hnd).2
    simp only [forEachLoop]
    rw [if_neg (by omega)]
    simp only [unregisterProcess]
    by_cases h1 : string_from_mem (entries.getD i default).osd_owner = OWNER_SIGNATURE_BYTES
    · rw [if_pos h1]
      obtain ⟨es', hrun, hlen, hchar⟩ :=
        ih (entries.set i (entries.getD i default).zeroed) hbr
          (fun j hj => by rw [List.length_set]; exact hltr j hj) hndr
      refine ⟨es', hrun, by rw [hlen, List.length_set], fun j => ?_⟩
      have hcj := hchar j
      rcases eq_or_ne j i with rfl | hne
      · rw [getD_set_self _ _ hlti] at hcj
        rw [if_neg (by simp [hni])] at hcj
        rw [hcj, if_pos ⟨List.mem_cons_self j rest, by
          simp only [ownedByUs, decide_eq_true_eq]; exact h1⟩]
      · rw [getD_set_ne _ _ i j _ (Ne.symm hne)] at hcj
        rw [hcj]
        simp [List.mem_cons, hne]
    · rw [if_neg h1]
      obtain ⟨es', hrun, hlen, hchar⟩ := ih entries hbr hltr hndr
      have hOwnF : ownedByUs (entries.getD i default) = false := by
        simp only [ownedByUs]; exact decide_eq_false h1
      refine ⟨es', ?_, hlen, fun j => ?_⟩
      · show forEachLoop sz off es unregisterProcess rest
          (entries.set i (entries.getD i default)) rem = .ok es' rem
        rw [set_getD_self]
        exact hrun
      · rw [hchar j]
        rcases eq_or_ne j i with rfl | hne
        · rw [if_neg (by simp [hni]), if_neg (by rw [hOwnF]; simp)]
        · simp [List.mem_cons, hne]

/-- C6: unregistration zeroes, in place, exactly the scanned slots
(indices 1..n-1) whose owner equals the OwnershipMark, scans through all of
them (duplicates are cleared too), leaves every other slot byte-for-byte
unchanged, and returns `Ok` even when no slot carried the mark — with the
busy flag released. -/
theorem unregister_clears_only_our_slots (view : SharedMemoryView)
    (hsig : view.mem.signature = RTSS_SIGNATURE)
    (hes : RTSS_OSD_ENTRY_SIZE ≤ view.mem.osd_entry_size)
    (hb : ∀ i ∈ List.range' 1 (view.mem.osd_arr_size - 1),
      view.mem.osd_arr_offset + (i + 1) * view.mem.osd_entry_size - 1 < view.size)
    (hn : view.mem.osd_arr_size ≤ view.mem.entries.length) :
    (view.unregister).1 = .ok () ∧
    (view.unregister).2.busy = 0 ∧
    (view.unregister).2.entries.length = view.mem.entries.length ∧
    ∀ j, (view.unregister).2.entries.getD j default =
      if 1 ≤ j ∧ j < view.mem.osd_arr_size ∧
          string_from_mem ((view.mem.entries.getD j default).osd_owner) =
            OWNER_SIGNATURE_BYTES
      then (view.mem.entries.getD j default).zeroed
      else view.mem.entries.getD j default := by
  obtain ⟨es', hrun, hlen, hchar⟩ :=
    forEachLoop_unregisterProcess_spec view.size view.mem.osd_arr_offset
      view.mem.osd_entry_size (List.range' 1 (view.mem.osd_arr_size - 1))
      view.mem.entries none hb
      (fun i hi => by
        have := List.mem_range'_1.mp hi
        omega)
      (List.nodup_range' 1 (view.mem.osd_arr_size - 1))
  have hres : view.unregister =
      (.ok (), { view.mem with busy := 0, entries := es' }) := by
    simp only [SharedMemoryView.unregister, SharedMemoryView.for_each_entry,
      SharedMemoryGuard.acquire, SharedMemoryGuard.release]
    rw [if_neg (by simp [hsig]), if_neg (Nat.not_lt.2 hes)]
    rw [hrun]
  refine ⟨by rw [hres], by rw [hres], by rw [hres]; exact hlen, fun j => ?_⟩
  rw [hres]
  show es'.getD j default = _
  rw [hchar j]
  by_cases hj : 1 ≤ j ∧ j < view.mem.osd_arr_size
  · have hjm : j ∈ List.range' 1 (view.mem.osd_arr_size - 1) :=
      List.mem_range'_1.mpr ⟨hj.1, by omega⟩
    by_cases hown : string_from_mem ((view.mem.entries.getD j default).osd_owner) =
        OWNER_SIGNATURE_BYTES
    · rw [if_pos ⟨hjm, by simp only [ownedByUs, decide_eq_true_eq]; exact hown⟩,
        if_pos ⟨hj.1, hj.2, hown⟩]
    · rw [if_neg (fun hc => hown (by
          simpa only [ownedByUs, decide_eq_true_eq] using hc.2)),
        if_neg (fun hc => hown hc.2.2)]
  · have hjm : j ∉ List.range' 1 (view.mem.osd_arr_size - 1) := fun hc => by
      have := List.mem_range'_1.mp hc
      omega
    rw [if_neg (fun hc => hjm hc.1), if_neg (fun hc => hj ⟨hc.1, hc.2.1⟩)]

/-- C6 witness: on `[owned_by_other, empty, owned_by_us, empty]` unregister
returns Ok, zeroes slot 2 and leaves slot 1 (and the rest) unchanged. -/
theorem unregister_clears_only_our_slots_witness :
    (sampleView.unregister).1 = .ok () ∧
    (sampleView.unregister).2.entries.getD 2 default = sampleOwnedSlot.zeroed ∧
    (sampleView.unregister).2.entries.getD 1 default = sampleEmptySlot := by
  have h := unregister_clears_only_our_slots sampleView (by decide) (by decide)
    (by decide) (by decide)
  refine ⟨h.1, ?_, ?_⟩
  · rw [h.2.2.2 2, if_pos ⟨by decide, by decide, by decide⟩]
    decide
  · rw [h.2.2.2 1, if_neg (by decide)]
    decide

lemma forEachLoop_not_mem_preserved (sz off es : Nat)
    (process : Nat → RtssSharedMemoryOsdEntry →
      SharedMemoryIterationNextStep × RtssSharedMemoryOsdEntry)
    (l : List Nat) (entries : List RtssSharedMemoryOsdEntry) (rem : Option Nat)
    (j : Nat) (d : RtssSharedMemoryOsdEntry) (hj : j ∉ l) :
    (forEachLoop sz off es process l entries rem).entries.getD j d =
      entries.getD j d := by
  induction l generalizing entries rem with
  | nil => rfl
  | cons i rest ih =>
    have hji : i ≠ j := fun hc => hj (hc ▸ List.mem_cons_self i rest)
    have hjr : j ∉ rest := fun hc => hj (List.mem_cons_of_mem _ hc)
    simp only [forEachLoop]
    split
    · rfl
    · rcases hp : process i (entries.getD i default) with ⟨step, e⟩
      cases step
      · exact getD_set_ne _ _ _ _ _ hji
      · show (forEachLoop sz off es process rest (entries.set i e)
            rem).entries.getD j d = entries.getD j d
        rw [ih _ _ hjr]
        exact getD_set_ne _ _ _ _ _ hji
      · exact getD_set_ne _ _ _ _ _ hji
      · show (forEachLoop sz off es process rest (entries.set i e)
            (if rem.isNone then some i else rem)).entries.getD j d = entries.getD j d
        rw [ih _ _ hjr]
        exact getD_set_ne _ _ _ _ _ hji

lemma forEachLoop_remembered_mem (sz off es : Nat)
    (process : Nat → RtssSharedMemoryOsdEntry →
      SharedMemoryIterationNextStep × RtssSharedMemoryOsdEntry)
    (l : List Nat) (entries : List RtssSharedMemoryOsdEntry) (rem : Option Nat)
    (es' : List RtssSharedMemoryOsdEntry) (r : Option Nat)
    (h : forEachLoop sz off es process l entries rem = .ok es' r) :
    r = rem ∨ ∃ i ∈ l, r = some i := by
  induction l generalizing entries rem with
  | nil => cases h; exact Or.inl rfl
  | cons i rest ih =>
    simp only [forEachLoop] at h
    split at h
    · cases h
    · rcases hp : process i (entries.getD i default) with ⟨step, e⟩
      rw [hp] at h
      cases step
      · cases h; exact Or.inl rfl
      · rcases ih _ _ h with h' | ⟨k, hk, h'⟩
        · exact Or.inl h'
        · exact Or.inr ⟨k, List.mem_cons_of_mem _ hk, h'⟩
      · cases h; exact Or.inr ⟨i, List.mem_cons_self i rest, rfl⟩
      · rcases ih _ _ h with h' | ⟨k, hk, h'⟩
        · rcases rem with _ | rv
          · simp at h'
            exact Or.inr ⟨i, List.mem_cons_self i rest, h'⟩
          · simp at h'
            exact Or.inl h'
        · exact Or.inr ⟨k, List.mem_cons_of_mem _ hk, h'⟩

lemma forEachLoop_layout_abort (sz off es : Nat)
    (process : Nat → RtssSharedMemoryOsdEntry →
      SharedMemoryIterationNextStep × RtssSharedMemoryOsdEntry)
    (l1 : List Nat) (b : Nat) (l2 : List Nat)
    (entries : List RtssSharedMemoryOsdEntry) (rem : Option Nat)
    (h1 : ∀ j ∈ l1, off + (j + 1) * es - 1 < sz)
    (hcont : ∀ j e, (process j e).1 = Continue ∨
      (process j e).1 = RememberIfNeededAndContinue)
    (hbad : sz ≤ off + (b + 1) * es - 1) :
    ∃ es', forEachLoop sz off es process (l1 ++ b :: l2) entries rem =
        .layoutError es' ∧
      es'.length = entries.length ∧
      ∀ j, j ∉ l1 → es'.getD j default = entries.getD j default := by
  induction l1 generalizing entries rem with
  | nil =>
    refine ⟨entries, ?_, rfl, fun j _ => rfl⟩
    simp only [List.nil_append, forEachLoop]
    rw [if_pos hbad]
  | cons i rest ih =>
    have hbi := h1 i (List.mem_cons_self i rest)
    have hbr : ∀ j ∈ rest, off + (j + 1) * es - 1 < sz := fun j hj =>
      h1 j (List.mem_cons_of_mem _ hj)
    simp only [List.cons_append, forEachLoop]
    rw [if_neg (by omega)]
    rcases hp : process i (entries.getD i default) with ⟨step, e⟩
    cases step
    · have hc := hcont i (entries.getD i default)
      rw [hp] at hc
      simp at hc
    · obtain ⟨es', hrun, hlen, hpres⟩ := ih (entries.set i e) rem hbr
      refine ⟨es', hrun, by rw [hlen, List.length_set], fun j hj => ?_⟩
      rw [hpres j (fun hc => hj (List.mem_cons_of_mem _ hc))]
      exact getD_set_ne _ _ _ _ _
        (fun hc => hj (hc ▸ List.mem_cons_self i rest))
    · have hc := hcont i (entries.getD i default)
      rw [hp] at hc
      simp at hc
    · obtain ⟨es', hrun, hlen, hpres⟩ :=
        ih (entries.set i e) (if rem.isNone then some i else rem) hbr
      refine ⟨es', hrun, by rw [hlen, List.length_set], fun j hj => ?_⟩
      rw [hpres j (fun hc => hj (List.mem_cons_of_mem _ hc))]
      exact getD_set_ne _ _ _ _ _
        (fun hc => hj (hc ▸ List.mem_cons_self i rest))

lemma forEachLoop_set_not_mem (sz off es : Nat)
    (process : Nat → RtssSharedMemoryOsdEntry →
      SharedMemoryIterationNextStep × RtssSharedMemoryOsdEntry)
    (l : List Nat) (entries : List RtssSharedMemoryOsdEntry) (rem : Option Nat)
    (j : Nat) (e0 : RtssSharedMemoryOsdEntry) (hj : j ∉ l) :
    forEachLoop sz off es process l (entries.set j e0) rem =
      match forEachLoop sz off es process l entries rem with
      | .ok es' r => .ok (es'.set j e0) r
      | .layoutError es' => .layoutError (es'.set j e0) := by
  induction l generalizing entries rem with
  | nil => rfl
  | cons i rest ih =>
    have hji : i ≠ j := fun hc => hj (hc ▸ List.mem_cons_self i rest)
    have hjr : j ∉ rest := fun hc => hj (List.mem_cons_of_mem _ hc)
    simp only [forEachLoop]
    split
    · rfl
    · rw [getD_set_ne _ _ _ _ _ (Ne.symm hji)]
      rcases hp : process i (entries.getD i default) with ⟨step, e⟩
      cases step
      · show ForEachLoopResult.ok ((entries.set j e0).set i e) rem = _
        rw [List.set_comm _ _ _ (Ne.symm hji)]
      · show forEachLoop sz off es process rest ((entries.set j e0).set i e) rem = _
        rw [List.set_comm _ _ _ (Ne.symm hji), ih _ _ hjr]
      · show ForEachLoopResult.ok ((entries.set j e0).set i e) (some i) = _
        rw [List.set_comm _ _ _ (Ne.symm hji)]
      · show forEachLoop sz off es process rest ((entries.set j e0).set i e)
            (if rem.isNone then some i else rem) = _
        rw [List.set_comm _ _ _ (Ne.symm hji), ih _ _ hjr]


/-- C3: the entry scan visits only slot indices `1..osd_arr_size`: slot 0 is
never written (it survives every `for_each_entry` unchanged) and never read
(replacing it cannot change the operation's result); and each visited index is
bounds-checked first: if the byte range of visited index `b` exceeds the
mapped region size (all earlier visited ranges being in bounds, the scan not
having stopped earlier), the whole operation fails with
`UnexpectedMemoryLayout` and slot `b` and all later slots are never written. -/
theorem scan_bounds_checked_and_slot_zero_untouched (view : SharedMemoryView)
    (process : Nat → RtssSharedMemoryOsdEntry →
      SharedMemoryIterationNextStep × RtssSharedMemoryOsdEntry)
    (finalize : Option (Nat × RtssSharedMemoryOsdEntry) →
      Option RtssSharedMemoryOsdEntry × Except Error Unit)
    (hsig : view.mem.signature = RTSS_SIGNATURE)
    (hes : RTSS_OSD_ENTRY_SIZE ≤ view.mem.osd_entry_size) :
    ((view.for_each_entry process finalize).2.entries.getD 0 default =
      view.mem.entries.getD 0 default) ∧
    (∀ e0, (SharedMemoryView.for_each_entry
        ⟨view.size, { view.mem with entries := view.mem.entries.set 0 e0 }⟩
        process finalize).1 = (view.for_each_entry process finalize).1) ∧
    (∀ b, 1 ≤ b → b < view.mem.osd_arr_size →
      (∀ j, 1 ≤ j → j < b →
        view.mem.osd_arr_offset + (j + 1) * view.mem.osd_entry_size - 1 < view.size) →
      view.size ≤ view.mem.osd_arr_offset + (b + 1) * view.mem.osd_entry_size - 1 →
      (∀ j e, (process j e).1 = Continue ∨
        (process j e).1 = RememberIfNeededAndContinue) →
      (view.for_each_entry process finalize).1 = .error .UnexpectedMemoryLayout ∧
      ∀ j, j = 0 ∨ b ≤ j →
        (view.for_each_entry process finalize).2.entries.getD j default =
          view.mem.entries.getD j default) := by
  have h0mem : (0 : Nat) ∉ List.range' 1 (view.mem.osd_arr_size - 1) := fun hc => by
    have := List.mem_range'_1.mp hc
    omega
  refine ⟨?_, ?_, ?_⟩
  · -- slot 0 never written
    simp only [SharedMemoryView.for_each_entry, SharedMemoryGuard.acquire,
      SharedMemoryGuard.release]
    rw [if_neg (by simp [hsig]), if_neg (Nat.not_lt.2 hes)]
    have hpres := forEachLoop_not_mem_preserved view.size view.mem.osd_arr_offset
      view.mem.osd_entry_size process (List.range' 1 (view.mem.osd_arr_size - 1))
      view.mem.entries none 0 default h0mem
    split
    · next es heq =>
      rw [heq] at hpres
      exact hpres
    · next es rem heq =>
      rw [heq] at hpres
      rcases rem with _ | i
      · exact hpres
      · have hi : 1 ≤ i := by
          rcases forEachLoop_remembered_mem _ _ _ _ _ _ _ _ _ heq with h' | ⟨k, hk, h'⟩
          · cases h'
          · cases h'
            exact (List.mem_range'_1.mp hk).1
        rcases hfr : (finalize (Option.map
            (fun k => (k, es.getD k default)) (some i))).1 with _ | e
        · exact hpres
        · show (es.set i e).getD 0 default = view.mem.entries.getD 0 default
          rw [getD_set_ne _ _ _ _ _ (by omega)]
          exact hpres
  · -- slot 0 never read: its content cannot influence the result
    intro e0
    simp only [SharedMemoryView.for_each_entry, SharedMemoryGuard.acquire,
      SharedMemoryGuard.release]
    rw [if_neg (by simp [hsig]), if_neg (Nat.not_lt.2 hes)]
    rw [if_neg (by simp [hsig]), if_neg (Nat.not_lt.2 hes)]
    rw [forEachLoop_set_not_mem view.size view.mem.osd_arr_offset
      view.mem.osd_entry_size process _ view.mem.entries none 0 e0 h0mem]
    rcases hloop : forEachLoop view.size view.mem.osd_arr_offset
        view.mem.osd_entry_size process (List.range' 1 (view.mem.osd_arr_size - 1))
        view.mem.entries none with ⟨es', r⟩ | ⟨es'⟩
    · rcases r with _ | i
      · rfl
      · have hi : 1 ≤ i := by
          rcases forEachLoop_remembered_mem _ _ _ _ _ _ _ _ _ hloop with h' | ⟨k, hk, h'⟩
          · cases h'
          · cases h'
            exact (List.mem_range'_1.mp hk).1
        show (finalize (Option.map
            (fun k => (k, (es'.set 0 e0).getD k default)) (some i))).2 = _
        rw [Option.map_some', getD_set_ne _ _ _ _ _ (by omega)]
        rfl
    · rfl
  · -- first out-of-bounds visited index aborts the scan
    intro b hb1 hb2 hok hbad hcont
    have hsplit : List.range' 1 (view.mem.osd_arr_size - 1) =
        List.range' 1 (b - 1) ++ b ::
          List.range' (b + 1) (view.mem.osd_arr_size - 1 - b) := by
      have e2 : view.mem.osd_arr_size - 1 =
          (view.mem.osd_arr_size - b) + (b - 1) := by omega
      have e1 : 1 + (b - 1) = b := by omega
      have e3 : view.mem.osd_arr_size - b =
          (view.mem.osd_arr_size - 1 - b) + 1 := by omega
      conv_lhs => rw [e2, ← List.range'_append_1 1 (b - 1) (view.mem.osd_arr_size - b),
        e1, e3, List.range'_succ]
    obtain ⟨es', hrun, hlen, hpres2⟩ := forEachLoop_layout_abort view.size
      view.mem.osd_arr_offset view.mem.osd_entry_size process
      (List.range' 1 (b - 1)) b (List.range' (b + 1) (view.mem.osd_arr_size - 1 - b))
      view.mem.entries none
      (fun j hj => by
        have := List.mem_range'_1.mp hj
        exact hok j this.1 (by omega))
      hcont hbad
    have hres : view.for_each_entry process finalize =
        (.error .UnexpectedMemoryLayout, { view.mem with busy := 0, entries := es' }) := by
      simp only [SharedMemoryView.for_each_entry, SharedMemoryGuard.acquire,
        SharedMemoryGuard.release]
      rw [if_neg (by simp [hsig]), if_neg (Nat.not_lt.2 hes), hsplit, hrun]
    refine ⟨by rw [hres], fun j hj => ?_⟩
    rw [hres]
    show es'.getD j default = view.mem.entries.getD j default
    refine hpres2 j (fun hc => ?_)
    have := List.mem_range'_1.mp hc
    rcases hj with rfl | hj <;> omega



/-- C3 witness: on a region truncated after slot 1, the scan (with the
unregister callback, which never stops early) fails with
`UnexpectedMemoryLayout`; slot 0 and the out-of-bounds slot 2 are untouched. -/
theorem scan_bounds_checked_and_slot_zero_untouched_witness :
    (sampleTruncView.for_each_entry unregisterProcess (fun _ => (none, .ok ()))).1 =
      .error .UnexpectedMemoryLayout ∧
    (sampleTruncView.for_each_entry unregisterProcess
      (fun _ => (none, .ok ()))).2.entries.getD 0 default = sampleOtherSlot ∧
    (sampleTruncView.for_each_entry unregisterProcess
      (fun _ => (none, .ok ()))).2.entries.getD 2 default = sampleOwnedSlot := by
  have h := scan_bounds_checked_and_slot_zero_untouched sampleTruncView
    unregisterProcess (fun _ => (none, .ok ())) (by decide) (by decide)
  have h3 := h.2.2 2 (by decide) (by decide)
    (fun j hj1 hj2 => by
      have hj : j = 1 := by omega
      subst hj
      decide)
    (by decide)
    (fun j e => Or.inl (by
      simp only [unregisterProcess]
      split <;> rfl))
  refine ⟨h3.1, ?_, ?_⟩
  · rw [h.1]
    decide
  · rw [h3.2 2 (Or.inr (le_refl 2))]
    decide

lemma digitChar_ne_minus (k : Nat) (hk : k < 10) : Nat.digitChar k ≠ '-' := by
  have h : ∀ m, m < 10 → Nat.digitChar m ≠ '-' := by decide
  exact h k hk

lemma toDigitsCore_ne_minus : ∀ (fuel n : Nat) (ds : List Char),
    (∀ c ∈ ds, c ≠ '-') → ∀ c ∈ Nat.toDigitsCore 10 fuel n ds, c ≠ '-' := by
  intro fuel
  induction fuel with
  | zero => exact fun n ds h c hc => h c hc
  | succ fuel ih =>
    intro n ds h c hc
    simp only [Nat.toDigitsCore] at hc
    have hd : Nat.digitChar (n % 10) ≠ '-' :=
      digitChar_ne_minus _ (Nat.mod_lt _ (by omega))
    split at hc
    · rcases List.mem_cons.mp hc with rfl | hmem
      · exact hd
      · exact h c hmem
    · refine ih _ _ (fun c' hc' => ?_) c hc
      rcases List.mem_cons.mp hc' with rfl | hmem
      · exact hd
      · exact h c' hmem

lemma natRepr_ne_minus (n : Nat) : ∀ c ∈ (Nat.repr n).data, c ≠ '-' := by
  intro c hc
  exact toDigitsCore_ne_minus (n + 1) n [] (by simp) c hc

lemma pad3_ne_minus (m : Nat) : ∀ c ∈ (pad3 m).data, c ≠ '-' := by
  intro c hc
  simp only [pad3] at hc
  split at hc
  · rw [String.data_append] at hc
    rcases List.mem_append.mp hc with hmem | hmem
    · have : c = '0' := by
        have := List.eq_of_mem_replicate (by simpa using hmem)
        exact this
      subst this
      decide
    · exact natRepr_ne_minus m c hmem
  · exact natRepr_ne_minus m c hc


/-- C10: for a draining rate between -999 and -1 mW the wattage figure is
"0." followed by the absolute value zero-padded to three digits — no minus
sign anywhere in it (the integer part `charge_rate / 1000` truncates to 0 and
the fractional part takes the absolute value of `charge_rate % 1000`) — while
the negative-rate branch is still taken and the draining-time text appended. -/
theorem low_drain_wattage_no_minus (r mins : Int) (g1 g2 : String) (hh mm : Nat)
    (hlo : -999 ≤ r) (hhi : r ≤ -1) :
    wattageText r = "0." ++ pad3 r.natAbs ++ "<S=50>W<S>" ∧
    (∀ c ∈ ("0." ++ pad3 r.natAbs).data, c ≠ '-') ∧
    updateOsdText r mins g1 g2 hh mm =
      g1 ++ wattageText r ++ ("  " ++ toString mins ++ "<S=50>mins<S>") ++ "\x0d\n"
        ++ g2 ++ "<FR><S=50>FPS<S>" ++ ("  " ++ pad2 hh ++ ":" ++ pad2 mm) := by
  have hdiv : r.tdiv 1000 = 0 := by
    obtain ⟨m, hm⟩ : ∃ m : Nat, r = -(m : Int) := ⟨r.natAbs, by omega⟩
    subst hm
    rw [Int.neg_tdiv, Int.tdiv_eq_zero_of_lt (by positivity) (by
      have : (m : Int) ≤ 999 := by omega
      omega)]
    rfl
  have hmod : r.tmod 1000 = r := by
    rw [Int.tmod_def, hdiv]
    ring
  refine ⟨?_, ?_, ?_⟩
  · simp only [wattageText, hdiv, hmod]
    rfl
  · intro c hc
    rw [String.data_append] at hc
    rcases List.mem_append.mp hc with hmem | hmem
    · have hd : ("0." : String).data = ['0', '.'] := rfl
      rw [hd] at hmem
      simp only [List.mem_cons, List.not_mem_nil, or_false] at hmem
      rcases hmem with rfl | rfl <;> decide
    · exact pad3_ne_minus r.natAbs c hmem
  · simp only [updateOsdText, SharedMemoryBuilder.new, SharedMemoryBuilder.add_graph,
      SharedMemoryBuilder.add_text, SharedMemoryBuilder.add_newline,
      if_pos (show r < 0 by omega)]
    rfl


/-- C10 witness: a -5 mW rate renders as "0.005" with no minus sign, and the
draining branch is taken. -/
theorem low_drain_wattage_no_minus_witness :
    wattageText (-5) = "0.005<S=50>W<S>" ∧
    updateOsdText (-5) 833 "" "" 9 5 =
      "" ++ wattageText (-5) ++ ("  " ++ toString (833 : Int) ++ "<S=50>mins<S>")
        ++ "\x0d\n" ++ "" ++ "<FR><S=50>FPS<S>" ++ ("  " ++ pad2 9 ++ ":" ++ pad2 5) := by
  have h := low_drain_wattage_no_minus (-5) 833 "" "" 9 5 (by decide) (by decide)
  refine ⟨?_, h.2.2⟩
  rw [h.1]
  decide

/-- C7: the facade's `ever_updated` flag is set exactly when an update call
completes successfully (it stays as-is across failing updates, so it stays
false across any sequence of failures); teardown (`Drop`) attempts the
unregister cycle if and only if the flag is set; and teardown never
propagates an error — success and the server-not-running case are silent,
any other failure is logged and swallowed. -/
theorem ever_updated_flag_and_teardown (r : Rtss)
    (env : Except Error (Nat × RtssSharedMemory)) (battery : BatteryStatus)
    (fpsResult : Except Error Unit) (mins : Int) (g1 g2 : String) (hh mm : Nat) :
    (((r.update env battery fpsResult mins g1 g2 hh mm).1.ever_updated = true) ↔
      (r.ever_updated = true ∨
        (r.update env battery fpsResult mins g1 g2 hh mm).2.1 = .ok ())) ∧
    ((r.drop env).1 = r.ever_updated) ∧
    ((Rtss.unregister env).1 = .ok () → r.ever_updated = true →
      (r.drop env).2.1 = none) ∧
    ((Rtss.unregister env).1 = .error .RtssV2NotRunning → r.ever_updated = true →
      (r.drop env).2.1 = none) ∧
    (∀ e, (Rtss.unregister env).1 = .error e → e ≠ .RtssV2NotRunning →
      r.ever_updated = true →
      (r.drop env).2.1 =
        some ("Failed to unregister from the RTSS shared memory: "
          ++ e.toMessage)) := by
  refine ⟨?_, ?_, ?_, ?_, ?_⟩
  · simp only [Rtss.update]
    rcases env with e | ⟨sz, mem0⟩
    · simp
    · simp only []
      rcases hff : SharedMemoryView.from_file sz mem0 with e | v
      · simp
      · rcases fpsResult with e | u
        · simp
        · simp only []
          rcases hw : (SharedMemoryBuilder.mk
              (updateOsdText battery.charge_rate mins g1 g2 hh mm) 0).write v
            with ⟨res, mem2⟩
          rcases res with e | u2
          · simp
          · simp
  · obtain ⟨flag⟩ := r
    cases flag
    · rfl
    · simp only [Rtss.drop]
      rcases hu : Rtss.unregister env with ⟨res, m⟩
      rcases res with e | u
      · cases e <;> rfl
      · rfl
  · intro hok hflag
    simp only [Rtss.drop, if_pos hflag]
    rcases hu : Rtss.unregister env with ⟨res, m⟩
    rw [hu] at hok
    simp only at hok
    subst hok
    rfl
  · intro herr hflag
    simp only [Rtss.drop, if_pos hflag]
    rcases hu : Rtss.unregister env with ⟨res, m⟩
    rw [hu] at herr
    simp only at herr
    subst herr
    rfl
  · intro e herr hne hflag
    simp only [Rtss.drop, if_pos hflag]
    rcases hu : Rtss.unregister env with ⟨res, m⟩
    rw [hu] at herr
    simp only at herr
    subst herr
    cases e
    · exact absurd rfl hne
    all_goals rfl

/-- C7 witness: a successful update sets the flag; a Drop with the flag set
logs (and swallows) a non-NotRunning failure; a Drop with the flag clear does
not attempt the cycle. -/
theorem ever_updated_flag_and_teardown_witness :
    ((Rtss.mk false).update (.ok (2000000, sampleMemory)) ⟨-5000, 50000⟩
      (.ok ()) 833 "" "" 9 5).1.ever_updated = true ∧
    ((Rtss.mk true).drop (.error .WindowsError)).2.1 =
      some "Failed to unregister from the RTSS shared memory: Unexpected WinAPI error" ∧
    ((Rtss.mk false).drop (.error .WindowsError)).1 = false := by
  refine ⟨?_, ?_, ?_⟩
  · exact (ever_updated_flag_and_teardown (Rtss.mk false) (.ok (2000000, sampleMemory))
      ⟨-5000, 50000⟩ (.ok ()) 833 "" "" 9 5).1.mpr (Or.inr rfl)
  · exact (ever_updated_flag_and_teardown (Rtss.mk true) (.error .WindowsError)
      ⟨0, 0⟩ (.ok ()) 0 "" "" 0 0).2.2.2.2 .WindowsError rfl (by decide) rfl
  · rw [(ever_updated_flag_and_teardown (Rtss.mk false) (.error .WindowsError)
      ⟨0, 0⟩ (.ok ()) 0 "" "" 0 0).2.1]

lemma string_from_mem_zero_cons (l : List Nat) : string_from_mem (0 :: l) = [] := rfl

lemma string_from_mem_cons_ne (a : Nat) (l : List Nat) (ha : a ≠ 0) :
    string_from_mem (a :: l) = a :: string_from_mem l := by
  simp only [string_from_mem, List.findIdx?_cons]
  rw [if_neg (by simpa using ha), List.findIdx?_succ]
  cases hf : l.findIdx? (fun c => c == 0) with
  | none => simp
  | some k => simp [hf]

lemma string_from_mem_append_zero (pre rest : List Nat) (h : ∀ c ∈ pre, c ≠ 0) :
    string_from_mem (pre ++ 0 :: rest) = pre := by
  induction pre with
  | nil => exact string_from_mem_zero_cons rest
  | cons a t ih =>
    rw [List.cons_append,
      string_from_mem_cons_ne a _ (h a (List.mem_cons_self a t)),
      ih (fun c hc => h c (List.mem_cons_of_mem _ hc))]

lemma string_to_mem_fst (s b : List Nat) :
    (string_to_mem s b).1 = decide (s.length < b.length) := rfl

lemma string_to_mem_snd_fits (s b : List Nat) (h : s.length < b.length) :
    ∃ rest, (string_to_mem s b).2 = s ++ 0 :: rest := by
  have hmin : min s.length b.length = s.length := Nat.min_eq_left (Nat.le_of_lt h)
  obtain ⟨c, rest, hcr⟩ : ∃ c rest, b.drop s.length = c :: rest := by
    cases hd : b.drop s.length with
    | nil =>
      have := congrArg List.length hd
      simp [List.length_drop] at this
      omega
    | cons c rest => exact ⟨c, rest, rfl⟩
  refine ⟨rest, ?_⟩
  show (if min s.length b.length < b.length
      then (s.take (min s.length b.length) ++ b.drop (min s.length b.length)).set
        (min s.length b.length) 0
      else s.take (min s.length b.length) ++ b.drop (min s.length b.length)) =
    s ++ 0 :: rest
  rw [hmin, if_pos h, List.take_length, hcr,
    List.set_append_right _ _ (Nat.le_refl _), Nat.sub_self]
  rfl


/-- C9: on a valid segment in which the claim scan's target slot `j` is
already owned by this application, `update` with `charge_rate = -5000`
succeeds, rewrites exactly slot `j`'s extended text to the bytes of the
composed OSD string — which contains "-5.000" followed by the watt
size-override markup and then the draining-time text — and leaves the slot's
owner string equal to the same OwnershipMark as before the call; every other
slot is unchanged. -/
theorem update_rewrites_owned_slot_text (r : Rtss) (rs : Nat)
    (mem : RtssSharedMemory) (cap mins : Int) (g1 g2 : String) (hh mm : Nat)
    (j : Nat)
    (hrs : RTSS_SHARED_MEMORY_HEADER_SIZE ≤ rs)
    (hsig : mem.signature = RTSS_SIGNATURE)
    (hver : RTSS_MIN_SUPPORTED_VERSION ≤ mem.version)
    (hes : RTSS_OSD_ENTRY_SIZE ≤ mem.osd_entry_size)
    (hb : ∀ i ∈ List.range' 1 (mem.osd_arr_size - 1),
      mem.osd_arr_offset + (i + 1) * mem.osd_entry_size - 1 < rs)
    (hsel : specClaimTarget mem.entries mem.osd_arr_size = some j)
    (hjlen : j < mem.entries.length)
    (_hown : string_from_mem ((mem.entries.getD j default).osd_owner) =
      OWNER_SIGNATURE_BYTES)
    (hownlen : OWNER_SIGNATURE_BYTES.length <
      (mem.entries.getD j default).osd_owner.length)
    (htextlen : (strBytes (updateOsdText (-5000) mins g1 g2 hh mm)).length <
      (mem.entries.getD j default).osd_ex.length) :
    (r.update (.ok (rs, mem)) ⟨-5000, cap⟩ (.ok ()) mins g1 g2 hh mm).2.1 =
      .ok () ∧
    (∃ m', (r.update (.ok (rs, mem)) ⟨-5000, cap⟩ (.ok ()) mins g1 g2 hh mm).2.2 =
        some m' ∧
      (m'.entries.getD j default).osd_ex.take
          (strBytes (updateOsdText (-5000) mins g1 g2 hh mm)).length =
        strBytes (updateOsdText (-5000) mins g1 g2 hh mm) ∧
      string_from_mem ((m'.entries.getD j default).osd_owner) =
        OWNER_SIGNATURE_BYTES ∧
      ∀ k, k ≠ j → m'.entries.getD k default = mem.entries.getD k default) ∧
    (∃ pre post, updateOsdText (-5000) mins g1 g2 hh mm =
      pre ++ ("-5.000<S=50>W<S>" ++ ("  " ++ toString mins ++ "<S=50>mins<S>"))
        ++ post) := by
  have hff : SharedMemoryView.from_file rs mem = .ok ⟨rs, mem⟩ := by
    simp only [SharedMemoryView.from_file]
    rw [if_neg (Nat.not_lt.2 hrs), if_neg (fun hc => hc hsig),
      if_neg (Nat.not_lt.2 hver)]
  have e := mem.entries.getD j default
  rcases hsm1 : string_to_mem OWNER_SIGNATURE_BYTES
      (mem.entries.getD j default).osd_owner with ⟨f1, o2⟩
  rcases hsm2 : string_to_mem (strBytes (updateOsdText (-5000) mins g1 g2 hh mm))
      (mem.entries.getD j default).osd_ex with ⟨f2, x2⟩
  have hf1 : f1 = true := by
    have h := string_to_mem_fst OWNER_SIGNATURE_BYTES
      (mem.entries.getD j default).osd_owner
    rw [hsm1] at h
    simp only [] at h
    rw [h]
    exact decide_eq_true hownlen
  have hf2 : f2 = true := by
    have h := string_to_mem_fst (strBytes (updateOsdText (-5000) mins g1 g2 hh mm))
      (mem.entries.getD j default).osd_ex
    rw [hsm2] at h
    simp only [] at h
    rw [h]
    exact decide_eq_true htextlen
  subst hf1
  subst hf2
  obtain ⟨restO, hO⟩ := string_to_mem_snd_fits OWNER_SIGNATURE_BYTES
    (mem.entries.getD j default).osd_owner hownlen
  obtain ⟨restT, hT⟩ := string_to_mem_snd_fits
    (strBytes (updateOsdText (-5000) mins g1 g2 hh mm))
    (mem.entries.getD j default).osd_ex htextlen
  rw [hsm1] at hO
  rw [hsm2] at hT
  simp only at hO hT
  subst hO
  subst hT
  have hwe : (SharedMemoryBuilder.mk (updateOsdText (-5000) mins g1 g2 hh mm)
        0).writeEntry (mem.entries.getD j default) =
      ({ mem.entries.getD j default with
        osd_owner := OWNER_SIGNATURE_BYTES ++ 0 :: restO
        osd_ex := strBytes (updateOsdText (-5000) mins g1 g2 hh mm) ++ 0 :: restT },
      .ok ()) := by
    simp only [SharedMemoryBuilder.writeEntry, hsm1, hsm2]
    rfl
  have hwrite := (update_applies_writer_at_spec_target ⟨rs, mem⟩
    ((SharedMemoryBuilder.mk (updateOsdText (-5000) mins g1 g2 hh mm) 0).writeEntry)
    hsig hes hb).2 j hsel
  rw [hwe] at hwrite
  have hupd : r.update (.ok (rs, mem)) ⟨-5000, cap⟩ (.ok ()) mins g1 g2 hh mm =
      (⟨true⟩, .ok (), some { mem with
        busy := 0
        entries := mem.entries.set j
          { mem.entries.getD j default with
            osd_owner := OWNER_SIGNATURE_BYTES ++ 0 :: restO
            osd_ex := strBytes (updateOsdText (-5000) mins g1 g2 hh mm)
              ++ 0 :: restT } }) := by
    simp only [Rtss.update]
    rw [hff]
    simp only [SharedMemoryBuilder.write]
    rw [hwrite]
  have hnozero : ∀ c ∈ OWNER_SIGNATURE_BYTES, c ≠ 0 := by decide
  refine ⟨by rw [hupd], ⟨_, by rw [hupd], ?_, ?_, ?_⟩, ?_⟩
  · rw [getD_set_self _ _ hjlen]
    exact List.take_left' rfl
  · rw [getD_set_self _ _ hjlen]
    exact string_from_mem_append_zero _ _ hnozero
  · intro k hk
    exact getD_set_ne _ _ _ _ _ (Ne.symm hk)
  · refine ⟨g1, "\x0d\n" ++ g2 ++ "<FR><S=50>FPS<S>"
      ++ ("  " ++ pad2 hh ++ ":" ++ pad2 mm), ?_⟩
    simp only [updateOsdText, SharedMemoryBuilder.new, SharedMemoryBuilder.add_graph,
      SharedMemoryBuilder.add_text, SharedMemoryBuilder.add_newline,
      if_pos (show (-5000 : Int) < 0 by decide)]
    rw [show wattageText (-5000) = "-5.000<S=50>W<S>" from by decide]
    apply String.ext
    simp [String.data_append, List.append_assoc]


/-- C9 witness: on the sample segment whose slot 2 is owned by us, the update
with charge rate -5000 succeeds; slot 2's extended text carries the composed
string, whose "-5.000" wattage figure is followed by the draining-time text;
the owner string of slot 2 still reads "LilPowerMan" and slot 1 is unchanged. -/
theorem update_rewrites_owned_slot_text_witness :
    ((Rtss.mk false).update (.ok (2000000, sampleMemory)) ⟨-5000, 50000⟩ (.ok ())
      833 "" "" 9 5).2.1 = .ok () ∧
    (∃ m', ((Rtss.mk false).update (.ok (2000000, sampleMemory)) ⟨-5000, 50000⟩
        (.ok ()) 833 "" "" 9 5).2.2 = some m' ∧
      string_from_mem ((m'.entries.getD 2 default).osd_owner) =
        OWNER_SIGNATURE_BYTES ∧
      m'.entries.getD 1 default = sampleEmptySlot) ∧
    (∃ pre post, updateOsdText (-5000) 833 "" "" 9 5 =
      pre ++ ("-5.000<S=50>W<S>" ++ ("  " ++ toString (833 : Int) ++ "<S=50>mins<S>"))
        ++ post) := by
  have h := update_rewrites_owned_slot_text (Rtss.mk false) 2000000 sampleMemory
    50000 833 "" "" 9 5 2 (by decide) (by decide) (by decide) (by decide)
    (by decide) (by decide) (by decide) (by decide) (by decide) (by decide)
  obtain ⟨h1, ⟨m', hm', _, howner, hothers⟩, h3⟩ := h
  exact ⟨h1, ⟨m', hm', howner, by rw [hothers 1 (by decide)]; decide⟩, h3⟩

end LilPowerMan
